import Mathlib

/-!
Verification of the context-scope engine in `src/index.ts` (`createContext`).

The engine is embedded shallowly:

* `Val` is JavaScript-like structured data (the values held in a store).
* `Obj` is a plain object: its own enumerable fields in insertion order.
* A `St` is the mutable world: a heap of store objects (addresses are list
  indices, so object identity is an address) together with the
  `AsyncLocalStorage` association `cur`, the address of the currently
  active store, if any.
* The engine operations (`get`, `set`, `run`, `withScope`, `bind`,
  `bindEmitter`, `use`) are translated from the source one by one;
  `structuredClone` of a store becomes allocation of a fresh heap cell
  holding the same field values, and the in-place
  delete-all-keys-then-`Object.assign` performed by `set` becomes an update
  of the heap cell at the current address.
* `Prog` is a deep embedding of client code built from the engine's scope
  and mutation operations, used to quantify over "every function fn".
-/

namespace Ctxx

/-- JavaScript-like structured values stored in a context store. -/
inductive Val where
  | vint : Int → Val
  | vstr : String → Val
  | vobj : List (String × Val) → Val
  | vundef : Val

/-- A plain object: its own fields, in insertion order, with unique keys. -/
abbrev Obj := List (String × Val)

/-- Property read `o[k]`: the value of the first field named `k`, if any. -/
def lookupVal (o : Obj) (k : String) : Option Val :=
  (o.find? (fun kv => kv.1 == k)).map (fun kv => kv.2)

/-- Does `o` have an own field named `k`? -/
def hasKey (o : Obj) (k : String) : Bool :=
  (lookupVal o k).isSome

/-- `Object.assign({}, prev, patch)`: every field of `prev`, in order, with
its value overwritten by `patch`'s value when `patch` has the same key;
then the fields of `patch` whose keys are new, in `patch`'s order. -/
def objAssign (prev patch : Obj) : Obj :=
  prev.map (fun kv => (kv.1, (lookupVal patch kv.1).getD kv.2))
    ++ patch.filter (fun kv => !hasKey prev kv.1)

/-- `defaultMerge` from the source: `Object.assign({}, prev, patch)`. -/
def defaultMerge (prev patch : Obj) : Obj :=
  objAssign prev patch

/-- The mutable world: a heap of store objects (an address is an index into
`heap`, modelling JS object identity) and the `AsyncLocalStorage`
association `cur` — the address of the active store, if any. -/
structure St where
  heap : List Obj
  cur : Option Nat

/-- `als.getStore()`: the active store's current field values, if a scope
is active. -/
def getStore (s : St) : Option Obj :=
  s.cur.bind (fun a => s.heap[a]?)

/-- The active store treated as empty when absent (used by `withScope`). -/
def curStore (s : St) : Obj :=
  (getStore s).getD []

/-- `has()`: is a store active? -/
def has (s : St) : Bool :=
  (getStore s).isSome

/-- `get()` with no key: the whole active store, or `undefined` (`none`). -/
def get (s : St) : Option Obj :=
  getStore s

/-- `get(key)`: `store[key]`, or `undefined` when no scope is active or the
field is absent. -/
def getKey (s : St) (k : String) : Val :=
  match getStore s with
  | none => Val.vundef
  | some st => (lookupVal st k).getD Val.vundef

/-- `set(patch)`: a no-op outside a scope; otherwise computes
`merge(store, patch)`, deletes every existing key of the active store and
assigns the merged fields — an in-place update of the same heap cell, so
the store's address (identity) is unchanged. -/
def set (m : Obj → Obj → Obj) (patch : Obj) (s : St) : St :=
  match s.cur with
  | none => s
  | some a =>
    match s.heap[a]? with
    | none => s
    | some store => ⟨s.heap.set a (m store patch), s.cur⟩

/-- `als.run(v, ...)` entry on a freshly cloned store: allocate a new heap
cell holding `v` and make it active. -/
def scopeEnter (s : St) (v : Obj) : St :=
  ⟨s.heap ++ [v], some s.heap.length⟩

/-- Client code built from the engine's scope and mutation operations.
Reads (`has`/`get`/`use`) do not change the state, so a program records the
state-relevant steps: `set`, nested `run`, nested `with`, and throwing. -/
inductive Prog where
  | nil : Prog
  | set (patch : Obj) (rest : Prog) : Prog
  | runScope (initial : Obj) (body rest : Prog) : Prog
  | withScope (patch : Obj) (body rest : Prog) : Prog
  | throwErr : Prog

/-- The store `withScope` enters with: a fresh cell holding
`merge(current ?? {}, patch)` (the `structuredClone` of the merge). -/
def withEntry (m : Obj → Obj → Obj) (s : St) (patch : Obj) : St :=
  scopeEnter s (m (curStore s) patch)

/-- Execution of a client program, threading the world. The second
component is `true` for normal completion and `false` when the program
threw; `als.run` restores the previous association in both cases. -/
def exec (m : Obj → Obj → Obj) : Prog → St → St × Bool
  | .nil, s => (s, true)
  | .throwErr, s => (s, false)
  | .set patch rest, s => exec m rest (set m patch s)
  | .runScope initial body rest, s =>
    let r := exec m body (scopeEnter s initial)
    if r.2 then exec m rest ⟨r.1.heap, s.cur⟩ else (⟨r.1.heap, s.cur⟩, false)
  | .withScope patch body rest, s =>
    let r := exec m body (withEntry m s patch)
    if r.2 then exec m rest ⟨r.1.heap, s.cur⟩ else (⟨r.1.heap, s.cur⟩, false)

/-- `run(initial, fn)`: `als.run(structuredClone(initial), fn)` — execute
the body with a fresh cell holding `initial` active, then restore the
caller's association, propagating the body's outcome. -/
def run (m : Obj → Obj → Obj) (initial : Obj) (body : Prog) (s : St) : St × Bool :=
  let r := exec m body (scopeEnter s initial)
  (⟨r.1.heap, s.cur⟩, r.2)

/-- `with(patch, fn)`: `als.run(structuredClone(merge(current ?? {}, patch)), fn)`. -/
def withScope (m : Obj → Obj → Obj) (patch : Obj) (body : Prog) (s : St) : St × Bool :=
  let r := exec m body (withEntry m s patch)
  (⟨r.1.heap, s.cur⟩, r.2)

/-- A binding produced by `bind`: the captured store reference (`addr`) and
the `opts?.live` flag, both consulted only when the wrapper is invoked. -/
structure Binding where
  live : Bool
  addr : Nat

/-- Outcome of `bind(fn, opts)`: the original function unchanged (no active
context) or a wrapper carrying the captured reference. -/
inductive BindResult where
  | unchanged : BindResult
  | wrapped (b : Binding) : BindResult

/-- `bind(fn, opts)`: capture `als.getStore()`; with no active context the
function is returned unchanged, otherwise a wrapper is produced. -/
def bind (s : St) (live : Bool) : BindResult :=
  match s.cur with
  | none => BindResult.unchanged
  | some a => BindResult.wrapped ⟨live, a⟩

/-- State at the start of a bound invocation:
`als.run(getBoundStore(), ...)` where `getBoundStore()` is evaluated at
invocation time — the captured reference itself when live, otherwise
`structuredClone(captured)`, a fresh cell holding the referenced cell's
current field values. -/
def invokeEntry (b : Binding) (s : St) : St :=
  if b.live then ⟨s.heap, some b.addr⟩
  else scopeEnter s (s.heap.getD b.addr [])

/-- Invoking a bound function whose underlying body is `body`: run the body
from the invocation-time entry state, then restore the invoker's
association. -/
def invokeBound (m : Obj → Obj → Obj) (b : Binding) (body : Prog) (s : St) : St × Bool :=
  let r := exec m body (invokeEntry b s)
  (⟨r.1.heap, s.cur⟩, r.2)

/-- The error message thrown by the strict accessor. -/
def noActiveContextMessage : String :=
  "No active context. Make sure to wrap your code with ctx.run(...) or use the provided middleware."

/-- `use()`: the active store, or a thrown `NoActiveContextError`. -/
def use (s : St) : Except String Obj :=
  match getStore s with
  | none => Except.error noActiveContextMessage
  | some st => Except.ok st

/-- The five listener-registration variants rewritten by `bindEmitter`. -/
inductive RegVariant where
  | addListener : RegVariant
  | on : RegVariant
  | once : RegVariant
  | prependListener : RegVariant
  | prependOnceListener : RegVariant

/-- Does the variant prepend instead of append? -/
def RegVariant.isPrepend : RegVariant → Bool
  | .prependListener => true
  | .prependOnceListener => true
  | _ => false

/-- An event emitter: its registered listeners for one event (in listener
order; `none` is a plain listener, `some b` one wrapped with binding `b`),
and whether its registration surface has been rewritten by `bindEmitter`
(`some live` records the `opts` passed there). -/
structure Emitter where
  listeners : List (Option Binding)
  boundOpts : Option Bool

/-- `bindEmitter(emitter, opts)`: replace the registration methods with
wrappers that will `bind` each future listener; already-registered
listeners are untouched, and no store is captured at this point. -/
def bindEmitter (live : Bool) (e : Emitter) : Emitter :=
  { e with boundOpts := some live }

/-- The listener actually stored when one is registered in state `s`: the
rewritten methods call `bind(listener, opts)` at registration time. -/
def wrapListener (s : St) (e : Emitter) : Option Binding :=
  match e.boundOpts with
  | none => none
  | some live =>
    match bind s live with
    | BindResult.unchanged => none
    | BindResult.wrapped b => some b

/-- Registering a listener through variant `v` while the world is `s`. -/
def register (s : St) (v : RegVariant) (e : Emitter) : Emitter :=
  if v.isPrepend then { e with listeners := wrapListener s e :: e.listeners }
  else { e with listeners := e.listeners ++ [wrapListener s e] }

/-- `set` never changes which store is active. -/
theorem set_cur (m : Obj → Obj → Obj) (patch : Obj) (s : St) :
    (set m patch s).cur = s.cur := by
  unfold set
  split
  · rfl
  · split
    · rfl
    · rfl

/-- `set` mutates in place: it never allocates or frees a store. -/
theorem set_heap_length (m : Obj → Obj → Obj) (patch : Obj) (s : St) :
    (set m patch s).heap.length = s.heap.length := by
  unfold set
  split
  · rfl
  · split
    · rfl
    · exact List.length_set ..

/-- `set` touches no store other than the active one. -/
theorem set_heap_get_ne (m : Obj → Obj → Obj) (patch : Obj) (s : St) (i : Nat)
    (h : ∀ a, s.cur = some a → i ≠ a) :
    (set m patch s).heap[i]? = s.heap[i]? := by
  rcases s with ⟨hp, c⟩
  cases c with
  | none => rfl
  | some a =>
    show (set m patch ⟨hp, some a⟩).heap[i]? = hp[i]?
    unfold set
    cases hh : hp[a]? with
    | none => simp only [hh]
    | some store =>
      simp only [hh]
      exact List.getElem?_set_ne (fun e => h a rfl e.symm)

/-- Entering a scope activates the freshly allocated cell. -/
theorem scopeEnter_cur (s : St) (v : Obj) :
    (scopeEnter s v).cur = some s.heap.length := rfl

/-- The store read inside a just-entered scope is the cloned value. -/
theorem curStore_scopeEnter (s : St) (v : Obj) :
    curStore (scopeEnter s v) = v := by
  simp [curStore, getStore, scopeEnter]

/-- Executing a client program restores the invoker's association: every
scope opened inside is also closed inside. -/
theorem exec_cur (m : Obj → Obj → Obj) (p : Prog) :
    ∀ s : St, (exec m p s).1.cur = s.cur := by
  induction p with
  | nil => intro s; rfl
  | throwErr => intro s; rfl
  | set patch rest ih =>
    intro s
    show (exec m rest (set m patch s)).1.cur = s.cur
    rw [ih (set m patch s), set_cur]
  | runScope initial body rest ihb ihr =>
    intro s
    show (let r := exec m body (scopeEnter s initial);
      if r.2 then exec m rest ⟨r.1.heap, s.cur⟩ else (⟨r.1.heap, s.cur⟩, false)).1.cur = s.cur
    cases hb : (exec m body (scopeEnter s initial)).2 with
    | false => simp [hb]
    | true => simp [hb, ihr]
  | withScope patch body rest ihb ihr =>
    intro s
    show (let r := exec m body (withEntry m s patch);
      if r.2 then exec m rest ⟨r.1.heap, s.cur⟩ else (⟨r.1.heap, s.cur⟩, false)).1.cur = s.cur
    cases hb : (exec m body (withEntry m s patch)).2 with
    | false => simp [hb]
    | true => simp [hb, ihr]

/-- Execution only grows the heap: existing stores keep their addresses. -/
theorem exec_heap_len (m : Obj → Obj → Obj) (p : Prog) :
    ∀ s : St, s.heap.length ≤ (exec m p s).1.heap.length := by
  induction p with
  | nil => intro s; exact Nat.le_refl _
  | throwErr => intro s; exact Nat.le_refl _
  | set patch rest ih =>
    intro s
    show s.heap.length ≤ (exec m rest (set m patch s)).1.heap.length
    calc s.heap.length = (set m patch s).heap.length := (set_heap_length m patch s).symm
      _ ≤ _ := ih (set m patch s)
  | runScope initial body rest ihb ihr =>
    intro s
    show s.heap.length ≤ (let r := exec m body (scopeEnter s initial);
      if r.2 then exec m rest ⟨r.1.heap, s.cur⟩ else (⟨r.1.heap, s.cur⟩, false)).1.heap.length
    have h1 : s.heap.length ≤ (exec m body (scopeEnter s initial)).1.heap.length := by
      calc s.heap.length ≤ (scopeEnter s initial).heap.length := by
            simp [scopeEnter]
        _ ≤ _ := ihb (scopeEnter s initial)
    cases hb : (exec m body (scopeEnter s initial)).2 with
    | false => simpa [hb] using h1
    | true =>
      simp only [hb, if_true]
      exact Nat.le_trans h1 (ihr ⟨(exec m body (scopeEnter s initial)).1.heap, s.cur⟩)
  | withScope patch body rest ihb ihr =>
    intro s
    show s.heap.length ≤ (let r := exec m body (withEntry m s patch);
      if r.2 then exec m rest ⟨r.1.heap, s.cur⟩ else (⟨r.1.heap, s.cur⟩, false)).1.heap.length
    have h1 : s.heap.length ≤ (exec m body (withEntry m s patch)).1.heap.length := by
      calc s.heap.length ≤ (withEntry m s patch).heap.length := by
            simp [withEntry, scopeEnter]
        _ ≤ _ := ihb (withEntry m s patch)
    cases hb : (exec m body (withEntry m s patch)).2 with
    | false => simpa [hb] using h1
    | true =>
      simp only [hb, if_true]
      exact Nat.le_trans h1 (ihr ⟨(exec m body (withEntry m s patch)).1.heap, s.cur⟩)

/-- Frame property: executing any client program from a state whose active
store (if any) lies at or above the floor `n` leaves every store below `n`
untouched. Newly entered scopes always allocate fresh cells, so `set` can
only ever write at or above the floor. -/
theorem exec_frame (m : Obj → Obj → Obj) (p : Prog) :
    ∀ (s : St) (n i : Nat), n ≤ s.heap.length → (∀ c, s.cur = some c → n ≤ c) →
      i < n → (exec m p s).1.heap[i]? = s.heap[i]? := by
  induction p with
  | nil => intro s n i _ _ _; rfl
  | throwErr => intro s n i _ _ _; rfl
  | set patch rest ih =>
    intro s n i hn hc hi
    show (exec m rest (set m patch s)).1.heap[i]? = s.heap[i]?
    have h1 : (set m patch s).heap[i]? = s.heap[i]? :=
      set_heap_get_ne m patch s i
        (fun a ha => Nat.ne_of_lt (Nat.lt_of_lt_of_le hi (hc a ha)))
    have h2 := ih (set m patch s) n i (by rw [set_heap_length]; exact hn)
      (fun c hcc => hc c (by rwa [set_cur] at hcc)) hi
    rw [h2, h1]
  | runScope initial body rest ihb ihr =>
    intro s n i hn hc hi
    show (let r := exec m body (scopeEnter s initial);
      if r.2 then exec m rest ⟨r.1.heap, s.cur⟩
      else (⟨r.1.heap, s.cur⟩, false)).1.heap[i]? = s.heap[i]?
    have hilen : i < s.heap.length := Nat.lt_of_lt_of_le hi hn
    have hb2 : (scopeEnter s initial).heap[i]? = s.heap[i]? := by
      show (s.heap ++ [initial])[i]? = s.heap[i]?
      simp [List.getElem?_append, hilen]
    have hb1 : (exec m body (scopeEnter s initial)).1.heap[i]? = s.heap[i]? := by
      rw [ihb (scopeEnter s initial) n i
        (by simp [scopeEnter]; omega)
        (fun c hcc => by
          rw [scopeEnter_cur] at hcc
          exact (Option.some.inj hcc) ▸ hn) hi]
      exact hb2
    have hlen1 : n ≤ (exec m body (scopeEnter s initial)).1.heap.length := by
      have h := exec_heap_len m body (scopeEnter s initial)
      have h2 : s.heap.length ≤ (scopeEnter s initial).heap.length := by
        simp [scopeEnter]
      omega
    cases hb : (exec m body (scopeEnter s initial)).2 with
    | false => simpa [hb] using hb1
    | true =>
      simp only [hb, if_true]
      rw [ihr ⟨(exec m body (scopeEnter s initial)).1.heap, s.cur⟩ n i hlen1
        (fun c hcc => hc c hcc) hi]
      exact hb1
  | withScope patch body rest ihb ihr =>
    intro s n i hn hc hi
    show (let r := exec m body (withEntry m s patch);
      if r.2 then exec m rest ⟨r.1.heap, s.cur⟩
      else (⟨r.1.heap, s.cur⟩, false)).1.heap[i]? = s.heap[i]?
    have hilen : i < s.heap.length := Nat.lt_of_lt_of_le hi hn
    have hb2 : (withEntry m s patch).heap[i]? = s.heap[i]? := by
      show (s.heap ++ [m (curStore s) patch])[i]? = s.heap[i]?
      simp [List.getElem?_append, hilen]
    have hb1 : (exec m body (withEntry m s patch)).1.heap[i]? = s.heap[i]? := by
      rw [ihb (withEntry m s patch) n i
        (by simp [withEntry, scopeEnter]; omega)
        (fun c hcc => by
          rw [show (withEntry m s patch).cur = some s.heap.length from rfl] at hcc
          exact (Option.some.inj hcc) ▸ hn) hi]
      exact hb2
    have hlen1 : n ≤ (exec m body (withEntry m s patch)).1.heap.length := by
      have h := exec_heap_len m body (withEntry m s patch)
      have h2 : s.heap.length ≤ (withEntry m s patch).heap.length := by
        simp [withEntry, scopeEnter]
      omega
    cases hb : (exec m body (withEntry m s patch)).2 with
    | false => simpa [hb] using hb1
    | true =>
      simp only [hb, if_true]
      rw [ihr ⟨(exec m body (withEntry m s patch)).1.heap, s.cur⟩ n i hlen1
        (fun c hcc => hc c hcc) hi]
      exact hb1

/-- The program step `Prog.runScope` is exactly the `run` operation
followed by the rest of the program. -/
theorem exec_runScope_eq (m : Obj → Obj → Obj) (initial : Obj) (body rest : Prog) (s : St) :
    exec m (Prog.runScope initial body rest) s =
      (if (run m initial body s).2 then exec m rest (run m initial body s).1
       else run m initial body s) := by
  show (let r := exec m body (scopeEnter s initial);
    if r.2 then exec m rest ⟨r.1.heap, s.cur⟩ else (⟨r.1.heap, s.cur⟩, false)) = _
  cases hb : (exec m body (scopeEnter s initial)).2 with
  | false => simp [run, hb]
  | true => simp [run, hb]

/-- The program step `Prog.withScope` is exactly the `withScope` operation
followed by the rest of the program. -/
theorem exec_withScope_eq (m : Obj → Obj → Obj) (patch : Obj) (body rest : Prog) (s : St) :
    exec m (Prog.withScope patch body rest) s =
      (if (withScope m patch body s).2 then exec m rest (withScope m patch body s).1
       else withScope m patch body s) := by
  show (let r := exec m body (withEntry m s patch);
    if r.2 then exec m rest ⟨r.1.heap, s.cur⟩ else (⟨r.1.heap, s.cur⟩, false)) = _
  cases hb : (exec m body (withEntry m s patch)).2 with
  | false => simp [withScope, hb]
  | true => simp [withScope, hb]

/-- Reading a field whose key heads the list. -/
theorem lookupVal_cons_pos (k1 : String) (v1 : Val) (rest : Obj) (k : String)
    (h : k1 = k) : lookupVal ((k1, v1) :: rest) k = some v1 := by
  unfold lookupVal
  rw [List.find?_cons_of_pos _ (by simp [h])]
  rfl

/-- Reading a field skips a head with a different key. -/
theorem lookupVal_cons_neg (k1 : String) (v1 : Val) (rest : Obj) (k : String)
    (h : k1 ≠ k) : lookupVal ((k1, v1) :: rest) k = lookupVal rest k := by
  unfold lookupVal
  rw [List.find?_cons_of_neg _ (by simp [h])]

/-- Lookup distributes over concatenation, first list winning. -/
theorem lookupVal_append (l1 l2 : Obj) (k : String) :
    lookupVal (l1 ++ l2) k =
      (match lookupVal l1 k with
       | some v => some v
       | none => lookupVal l2 k) := by
  induction l1 with
  | nil => simp [lookupVal]
  | cons kv rest ih =>
    rcases kv with ⟨k1, v1⟩
    by_cases h : k1 = k
    · rw [List.cons_append, lookupVal_cons_pos _ _ _ _ h, lookupVal_cons_pos _ _ _ _ h]
    · rw [List.cons_append, lookupVal_cons_neg _ _ _ _ h, lookupVal_cons_neg _ _ _ _ h, ih]

/-- Lookup in the overwritten copy of `prev` built by `objAssign`. -/
theorem lookupVal_overwrite (prev patch : Obj) (k : String) :
    lookupVal (prev.map (fun kv => (kv.1, (lookupVal patch kv.1).getD kv.2))) k
      = (lookupVal prev k).map (fun v => (lookupVal patch k).getD v) := by
  induction prev with
  | nil => rfl
  | cons kv rest ih =>
    rcases kv with ⟨k1, v1⟩
    simp only [List.map_cons]
    by_cases h : k1 = k
    · subst h
      rw [lookupVal_cons_pos _ _ _ _ rfl, lookupVal_cons_pos _ _ _ _ rfl]
      rfl
    · rw [lookupVal_cons_neg _ _ _ _ h, lookupVal_cons_neg _ _ _ _ h, ih]

/-- Lookup in the new-keys part of `objAssign`. -/
theorem lookupVal_filterNew (prev patch : Obj) (k : String) :
    lookupVal (patch.filter (fun kv => !hasKey prev kv.1)) k
      = (if hasKey prev k then none else lookupVal patch k) := by
  induction patch with
  | nil => cases h : hasKey prev k <;> simp [lookupVal, h]
  | cons kv rest ih =>
    rcases kv with ⟨k1, v1⟩
    rw [List.filter_cons]
    by_cases h : k1 = k
    · subst h
      cases hp : hasKey prev k1 with
      | true => simpa [hp] using ih
      | false =>
        simp only [hp, Bool.not_false, if_true]
        rw [lookupVal_cons_pos _ _ _ _ rfl, lookupVal_cons_pos _ _ _ _ rfl]
        simp
    · dsimp only
      cases hp : hasKey prev k1 with
      | true =>
        simp only [Bool.not_true, Bool.false_eq_true, if_false]
        rw [ih, lookupVal_cons_neg _ _ _ _ h]
      | false =>
        simp only [Bool.not_false, if_true]
        rw [lookupVal_cons_neg _ _ _ _ h, ih, lookupVal_cons_neg _ _ _ _ h]

/-- The shallow-merge law of `defaultMerge`: a field present in the patch
is taken (wholesale) from the patch; a field absent from the patch keeps
the previous store's value. -/
theorem lookupVal_defaultMerge (store patch : Obj) (k : String) :
    lookupVal (defaultMerge store patch) k
      = (if hasKey patch k then lookupVal patch k else lookupVal store k) := by
  unfold defaultMerge objAssign
  rw [lookupVal_append, lookupVal_overwrite, lookupVal_filterNew]
  unfold hasKey
  cases hs : lookupVal store k with
  | none => cases hp : lookupVal patch k <;> simp [hs, hp]
  | some v => cases hp : lookupVal patch k <;> simp [hs, hp]

/-- `set` stores the merged object at the active address. -/
theorem set_heap_get_self (m : Obj → Obj → Obj) (patch : Obj) (s : St) (a : Nat)
    (store : Obj) (hc : s.cur = some a) (hst : s.heap[a]? = some store) :
    (set m patch s).heap[a]? = some (m store patch) := by
  rcases s with ⟨hp, c⟩
  have hc' : c = some a := hc
  subst hc'
  show (set m patch ⟨hp, some a⟩).heap[a]? = some (m store patch)
  unfold set
  simp only [hst]
  rw [List.getElem?_set_self', hst]
  rfl

/-- Claim C2: after `run(initial, fn)` or `with(patch, fn)` returns or
throws, the store active in the caller's extent is exactly the one active
immediately before entry, with its field values unchanged — for every
previously active store, every initial/patch object, and every body,
including bodies that throw. -/
theorem run_with_restores_prior_scope (m : Obj → Obj → Obj) (s : St) (c : Nat)
    (arg : Obj) (body : Prog) (hc : s.cur = some c) (hlt : c < s.heap.length) :
    ((run m arg body s).1.cur = some c
      ∧ (run m arg body s).1.heap[c]? = s.heap[c]?)
    ∧ ((withScope m arg body s).1.cur = some c
      ∧ (withScope m arg body s).1.heap[c]? = s.heap[c]?) := by
  have hrun : (exec m body (scopeEnter s arg)).1.heap[c]? = s.heap[c]? := by
    have h1 := exec_frame m body (scopeEnter s arg) s.heap.length c
      (by simp [scopeEnter])
      (fun cc hcc => by
        rw [scopeEnter_cur] at hcc
        exact Nat.le_of_eq (Option.some.inj hcc))
      hlt
    have h2 : (scopeEnter s arg).heap[c]? = s.heap[c]? := by
      show (s.heap ++ [arg])[c]? = s.heap[c]?
      simp [List.getElem?_append, hlt]
    exact h1.trans h2
  have hwith : (exec m body (withEntry m s arg)).1.heap[c]? = s.heap[c]? := by
    have h1 := exec_frame m body (withEntry m s arg) s.heap.length c
      (by simp [withEntry, scopeEnter])
      (fun cc hcc => by
        rw [show (withEntry m s arg).cur = some s.heap.length from rfl] at hcc
        exact Nat.le_of_eq (Option.some.inj hcc))
      hlt
    have h2 : (withEntry m s arg).heap[c]? = s.heap[c]? := by
      show (s.heap ++ [m (curStore s) arg])[c]? = s.heap[c]?
      simp [List.getElem?_append, hlt]
    exact h1.trans h2
  exact ⟨⟨hc, hrun⟩, hc, hwith⟩

/-- Witness for C2: outer scope with store `{a:1}`; the nested body sets a
field and throws; on exit the outer association and values are intact. -/
theorem run_with_restores_prior_scope_witness :
    ((⟨[[("a", Val.vint 1)]], some 0⟩ : St).cur = some 0)
    ∧ 0 < 1
    ∧ ((run defaultMerge [("b", Val.vint 9)]
          (Prog.set [("b", Val.vint 7)] Prog.throwErr)
          ⟨[[("a", Val.vint 1)]], some 0⟩).1.cur = some 0
      ∧ (run defaultMerge [("b", Val.vint 9)]
          (Prog.set [("b", Val.vint 7)] Prog.throwErr)
          ⟨[[("a", Val.vint 1)]], some 0⟩).1.heap[0]? = some [("a", Val.vint 1)])
    ∧ ((withScope defaultMerge [("b", Val.vint 9)]
          (Prog.set [("b", Val.vint 7)] Prog.throwErr)
          ⟨[[("a", Val.vint 1)]], some 0⟩).1.cur = some 0
      ∧ (withScope defaultMerge [("b", Val.vint 9)]
          (Prog.set [("b", Val.vint 7)] Prog.throwErr)
          ⟨[[("a", Val.vint 1)]], some 0⟩).1.heap[0]? = some [("a", Val.vint 1)]) := by
  have h := run_with_restores_prior_scope defaultMerge ⟨[[("a", Val.vint 1)]], some 0⟩ 0
    [("b", Val.vint 9)] (Prog.set [("b", Val.vint 7)] Prog.throwErr) rfl (by decide)
  exact ⟨rfl, by decide, ⟨h.1.1, h.1.2⟩, ⟨h.2.1, h.2.2⟩⟩

/-- Claim C3: `with(patch, fn)` runs `fn` with a store equal to a fresh
independent copy of `merge(current, patch)` (current read as empty when no
scope is active); `set` inside `fn` never changes the parent scope's
store, and after `with` exits the parent holds exactly its pre-entry field
values. Concretely: inside `run({a:1,b:2}, ...)`, after `with({b:3}, ...)`
performs `set({a:10})` the inner store reads `{a:10,b:3}`, and after the
`with` exits the outer store still reads `{a:1,b:2}`. -/
theorem with_merged_independent_copy (m : Obj → Obj → Obj) (s : St) (patch : Obj)
    (body : Prog) (c : Nat) (hc : s.cur = some c) (hlt : c < s.heap.length) :
    (curStore (withEntry m s patch) = m (curStore s) patch
      ∧ (withEntry m s patch).cur = some s.heap.length
      ∧ (withEntry m s patch).cur ≠ s.cur)
    ∧ ((withScope m patch body s).1.heap[c]? = s.heap[c]?
      ∧ (withScope m patch body s).1.cur = some c)
    ∧ (∀ t : St, t.cur = none → curStore t = [])
    ∧ curStore (set defaultMerge [("a", Val.vint 10)]
        (withEntry defaultMerge
          (scopeEnter ⟨[], none⟩ [("a", Val.vint 1), ("b", Val.vint 2)])
          [("b", Val.vint 3)]))
      = [("a", Val.vint 10), ("b", Val.vint 3)]
    ∧ curStore ((withScope defaultMerge [("b", Val.vint 3)]
        (Prog.set [("a", Val.vint 10)] Prog.nil)
        (scopeEnter ⟨[], none⟩ [("a", Val.vint 1), ("b", Val.vint 2)])).1)
      = [("a", Val.vint 1), ("b", Val.vint 2)] := by
  refine ⟨⟨curStore_scopeEnter s (m (curStore s) patch), rfl, ?_⟩, ⟨?_, ?_⟩,
    fun t ht => by simp [curStore, getStore, ht], rfl, rfl⟩
  · rw [show (withEntry m s patch).cur = some s.heap.length from rfl, hc]
    intro he
    have := Option.some.inj he
    omega
  · exact (run_with_restores_prior_scope m s c patch body hc hlt).2.2
  · exact (run_with_restores_prior_scope m s c patch body hc hlt).2.1

/-- Witness for C3 at the end-to-end scenario-B state. -/
theorem with_merged_independent_copy_witness :
    ((⟨[[("a", Val.vint 1), ("b", Val.vint 2)]], some 0⟩ : St).cur = some 0)
    ∧ 0 < 1
    ∧ curStore (withEntry defaultMerge
        ⟨[[("a", Val.vint 1), ("b", Val.vint 2)]], some 0⟩ [("b", Val.vint 3)])
      = [("a", Val.vint 1), ("b", Val.vint 3)]
    ∧ (withScope defaultMerge [("b", Val.vint 3)]
        (Prog.set [("a", Val.vint 10)] Prog.nil)
        ⟨[[("a", Val.vint 1), ("b", Val.vint 2)]], some 0⟩).1.heap[0]?
      = some [("a", Val.vint 1), ("b", Val.vint 2)] := by
  have h := with_merged_independent_copy defaultMerge
    ⟨[[("a", Val.vint 1), ("b", Val.vint 2)]], some 0⟩ [("b", Val.vint 3)]
    (Prog.set [("a", Val.vint 10)] Prog.nil) 0 rfl (by decide)
  exact ⟨rfl, by decide, h.1.1, h.2.1.1⟩

/-- Claim C4: under the default merge, `set(patch)` leaves the active
store with exactly the shallow field overwrite: each patched field is
fully replaced (nested structures are not merged recursively), unpatched
fields keep their values; e.g. `{a:1, b:{x:1}}` after `set({b:{y:2}})` is
exactly `{a:1, b:{y:2}}`. -/
theorem set_defaultMerge_shallow_overwrite (store patch : Obj) (k : String)
    (s : St) (a : Nat) (hc : s.cur = some a) (hst : s.heap[a]? = some store) :
    (set defaultMerge patch s).heap[a]? = some (defaultMerge store patch)
    ∧ lookupVal (defaultMerge store patch) k
        = (if hasKey patch k then lookupVal patch k else lookupVal store k)
    ∧ defaultMerge [("a", Val.vint 1), ("b", Val.vobj [("x", Val.vint 1)])]
        [("b", Val.vobj [("y", Val.vint 2)])]
      = [("a", Val.vint 1), ("b", Val.vobj [("y", Val.vint 2)])] :=
  ⟨set_heap_get_self defaultMerge patch s a store hc hst,
    lookupVal_defaultMerge store patch k, rfl⟩

/-- Witness for C4 at the concrete store of P3. -/
theorem set_defaultMerge_shallow_overwrite_witness :
    ((⟨[[("a", Val.vint 1), ("b", Val.vobj [("x", Val.vint 1)])]], some 0⟩ : St).cur
      = some 0)
    ∧ (set defaultMerge [("b", Val.vobj [("y", Val.vint 2)])]
        ⟨[[("a", Val.vint 1), ("b", Val.vobj [("x", Val.vint 1)])]], some 0⟩).heap[0]?
      = some [("a", Val.vint 1), ("b", Val.vobj [("y", Val.vint 2)])] := by
  have h := set_defaultMerge_shallow_overwrite
    [("a", Val.vint 1), ("b", Val.vobj [("x", Val.vint 1)])]
    [("b", Val.vobj [("y", Val.vint 2)])] "b"
    ⟨[[("a", Val.vint 1), ("b", Val.vobj [("x", Val.vint 1)])]], some 0⟩ 0 rfl rfl
  exact ⟨rfl, h.1⟩

/-- Claim C5: `set(patch)` replaces the active store's fields with those
of `merge(currentStore, patch)` in place: the active address (identity) is
unchanged, nothing is allocated or freed, and a live binding aliasing that
same store observes the merged values on its next read. -/
theorem set_in_place_preserves_identity (m : Obj → Obj → Obj) (s : St) (a : Nat)
    (store patch : Obj) (hc : s.cur = some a) (hst : s.heap[a]? = some store) :
    (set m patch s).cur = some a
    ∧ (set m patch s).heap.length = s.heap.length
    ∧ (set m patch s).heap[a]? = some (m store patch)
    ∧ curStore (invokeEntry ⟨true, a⟩ (set m patch s)) = m store patch := by
  refine ⟨by rw [set_cur]; exact hc, set_heap_length m patch s,
    set_heap_get_self m patch s a store hc hst, ?_⟩
  show curStore ⟨(set m patch s).heap, some a⟩ = m store patch
  simp [curStore, getStore, set_heap_get_self m patch s a store hc hst]

/-- Witness for C5: the P5 scenario, store `{x:1}` mutated to `{x:2}`. -/
theorem set_in_place_preserves_identity_witness :
    ((⟨[[("x", Val.vint 1)]], some 0⟩ : St).cur = some 0)
    ∧ (set defaultMerge [("x", Val.vint 2)] ⟨[[("x", Val.vint 1)]], some 0⟩).cur = some 0
    ∧ (set defaultMerge [("x", Val.vint 2)]
        ⟨[[("x", Val.vint 1)]], some 0⟩).heap.length = 1
    ∧ curStore (invokeEntry ⟨true, 0⟩
        (set defaultMerge [("x", Val.vint 2)] ⟨[[("x", Val.vint 1)]], some 0⟩))
      = [("x", Val.vint 2)] := by
  have h := set_in_place_preserves_identity defaultMerge ⟨[[("x", Val.vint 1)]], some 0⟩
    0 [("x", Val.vint 1)] [("x", Val.vint 2)] rfl rfl
  exact ⟨rfl, h.1, h.2.1, h.2.2.2⟩

/-- Claim C6: `use()` with no active scope always fails with the
`NoActiveContextError` message, which tells the caller to open a scope
first (it names `ctx.run`); inside any active scope it never fails and
returns the active store; an error is produced exactly when no store is
active, and every other operation of the engine is a total function. -/
theorem use_strict_accessor :
    (∀ s : St, s.cur = none → use s = Except.error noActiveContextMessage)
    ∧ (∃ pre post : String, noActiveContextMessage = pre ++ "ctx.run" ++ post)
    ∧ (∀ (s : St) (a : Nat) (st : Obj), s.cur = some a → s.heap[a]? = some st →
        use s = Except.ok st)
    ∧ (∀ s : St, (∃ e, use s = Except.error e) ↔ getStore s = none) := by
  refine ⟨fun s hs => by unfold use getStore; rw [hs]; rfl,
    ⟨"No active context. Make sure to wrap your code with ",
      "(...) or use the provided middleware.", rfl⟩,
    fun s a st h1 h2 => by unfold use getStore; rw [h1]; simp [h2],
    fun s => ?_⟩
  cases hg : getStore s with
  | none => simp [use, hg]
  | some st => simp [use, hg]

/-- Witness for C6: no scope ⇒ error; store `{a:1}` active ⇒ that store. -/
theorem use_strict_accessor_witness :
    use ⟨[], none⟩ = Except.error noActiveContextMessage
    ∧ use ⟨[[("a", Val.vint 1)]], some 0⟩ = Except.ok [("a", Val.vint 1)] :=
  ⟨use_strict_accessor.1 ⟨[], none⟩ rfl,
    use_strict_accessor.2.2.1 ⟨[[("a", Val.vint 1)]], some 0⟩ 0 [("a", Val.vint 1)] rfl rfl⟩

/-- Claim C7: with no scope active, every operation except `use` degrades
without failing: `has` is false, `get()` and `get(key)` are `undefined`,
`set` is a no-op changing no observable state, and `bind` is an identity
passthrough of the function. -/
theorem no_scope_graceful_degradation (s : St) (hs : s.cur = none) :
    has s = false
    ∧ get s = none
    ∧ (∀ k, getKey s k = Val.vundef)
    ∧ (∀ (m : Obj → Obj → Obj) (patch : Obj), set m patch s = s)
    ∧ (∀ live, bind s live = BindResult.unchanged) := by
  refine ⟨by simp [has, getStore, hs], by simp [get, getStore, hs],
    fun k => by unfold getKey getStore; rw [hs]; rfl,
    fun m patch => by unfold set; rw [hs],
    fun live => by unfold bind; rw [hs]⟩

/-- Witness for C7 at the empty no-scope state. -/
theorem no_scope_graceful_degradation_witness :
    has ⟨[], none⟩ = false
    ∧ get ⟨[], none⟩ = none
    ∧ getKey ⟨[], none⟩ "a" = Val.vundef
    ∧ set defaultMerge [("a", Val.vint 1)] ⟨[], none⟩ = ⟨[], none⟩
    ∧ bind ⟨[], none⟩ false = BindResult.unchanged := by
  have h := no_scope_graceful_degradation ⟨[], none⟩ rfl
  exact ⟨h.1, h.2.1, h.2.2.1 "a", h.2.2.2.1 defaultMerge [("a", Val.vint 1)],
    h.2.2.2.2 false⟩

/-- Claim C9: `run(initial, fn)` activates a deep copy of the caller's
`initial` object (here the object at heap address `src`): the scope's
store is a fresh cell distinct from the caller's object holding the same
field values, no `set` inside the scope ever mutates the caller's object,
and a mutation of the caller's object while the scope is active is not
visible through the active store. -/
theorem run_deep_copies_initial (m : Obj → Obj → Obj) (s : St) (src : Nat)
    (body : Prog) (hsrc : src < s.heap.length) :
    ((scopeEnter s (s.heap.getD src [])).cur = some s.heap.length
      ∧ s.heap.length ≠ src
      ∧ curStore (scopeEnter s (s.heap.getD src [])) = s.heap.getD src [])
    ∧ (run m (s.heap.getD src []) body s).1.heap[src]? = s.heap[src]?
    ∧ (∀ (t : St) (v : Obj), t.cur = some s.heap.length →
        curStore ⟨t.heap.set src v, t.cur⟩ = curStore t) := by
  refine ⟨⟨rfl, by omega, curStore_scopeEnter s (s.heap.getD src [])⟩, ?_, ?_⟩
  · have hc' : s.cur = s.cur := rfl
    have h1 := exec_frame m body (scopeEnter s (s.heap.getD src [])) s.heap.length src
      (by simp [scopeEnter])
      (fun cc hcc => by
        rw [scopeEnter_cur] at hcc
        exact Nat.le_of_eq (Option.some.inj hcc))
      hsrc
    have h2 : (scopeEnter s (s.heap.getD src [])).heap[src]? = s.heap[src]? := by
      show (s.heap ++ [s.heap.getD src []])[src]? = s.heap[src]?
      simp [List.getElem?_append, hsrc]
    exact h1.trans h2
  · intro t v ht
    unfold curStore getStore
    rw [ht]
    show ((t.heap.set src v)[s.heap.length]?).getD [] = (t.heap[s.heap.length]?).getD []
    rw [List.getElem?_set_ne (by omega : src ≠ s.heap.length)]

/-- Witness for C9: caller object `{a:1}` at address 0, body sets `{a:2}`;
the caller's object still holds `{a:1}` afterwards. -/
theorem run_deep_copies_initial_witness :
    0 < 1
    ∧ (run defaultMerge (([[("a", Val.vint 1)]] : List Obj).getD 0 [])
        (Prog.set [("a", Val.vint 2)] Prog.nil)
        ⟨[[("a", Val.vint 1)]], none⟩).1.heap[0]? = some [("a", Val.vint 1)] := by
  have h := run_deep_copies_initial defaultMerge ⟨[[("a", Val.vint 1)]], none⟩ 0
    (Prog.set [("a", Val.vint 2)] Prog.nil) (by decide)
  exact ⟨by decide, h.2.1⟩

/-- Claim C10: `get(k)` returns `undefined` when no scope is active, when
the active store has no field `k`, and when field `k` holds `undefined`;
the return value alone therefore cannot distinguish these cases — in
particular the no-scope state and a scope over an empty store give the
same result. -/
theorem getKey_undefined_ambiguity (k : String) :
    (∀ s : St, s.cur = none → getKey s k = Val.vundef)
    ∧ (∀ (s : St) (st : Obj), getStore s = some st → lookupVal st k = none →
        getKey s k = Val.vundef)
    ∧ (∀ (s : St) (st : Obj), getStore s = some st →
        lookupVal st k = some Val.vundef → getKey s k = Val.vundef)
    ∧ getKey ⟨[], none⟩ k = getKey ⟨[[]], some 0⟩ k := by
  refine ⟨fun s hs => by unfold getKey getStore; rw [hs]; rfl,
    fun s st h1 h2 => by
      unfold getKey
      rw [h1]
      show (lookupVal st k).getD Val.vundef = Val.vundef
      rw [h2]
      rfl,
    fun s st h1 h2 => by
      unfold getKey
      rw [h1]
      show (lookupVal st k).getD Val.vundef = Val.vundef
      rw [h2]
      rfl,
    ?_⟩
  show Val.vundef = getKey ⟨[[]], some 0⟩ k
  unfold getKey getStore lookupVal
  rfl

/-- Witness for C10 at key `"x"` and a store where `"x"` is absent. -/
theorem getKey_undefined_ambiguity_witness :
    getKey ⟨[], none⟩ "x" = Val.vundef
    ∧ getKey ⟨[[("y", Val.vint 1)]], some 0⟩ "x" = Val.vundef := by
  have h := getKey_undefined_ambiguity "x"
  exact ⟨h.1 ⟨[], none⟩ rfl,
    h.2.1 ⟨[[("y", Val.vint 1)]], some 0⟩ [("y", Val.vint 1)] rfl rfl⟩

/-- Claim C1 counterexample: a binding is taken with default (non-live)
options while the store reads `{x:1}`; the original scope then performs
`set({x:2})` and exits; invoking the bound function observes `x = 2`, not
the bind-time `x = 1` — the post-bind `set` IS visible, because the
non-live path evaluates `structuredClone(captured)` when the wrapper is
invoked, not when `bind` is called. -/
theorem defaultBind_observes_later_set_cex :
    bind ⟨[[("x", Val.vint 1)]], some 0⟩ false = BindResult.wrapped ⟨false, 0⟩
    ∧ set defaultMerge [("x", Val.vint 2)] ⟨[[("x", Val.vint 1)]], some 0⟩
      = ⟨[[("x", Val.vint 2)]], some 0⟩
    ∧ curStore (invokeEntry ⟨false, 0⟩ ⟨[[("x", Val.vint 2)]], none⟩)
      = [("x", Val.vint 2)]
    ∧ getKey (invokeEntry ⟨false, 0⟩ ⟨[[("x", Val.vint 2)]], none⟩) "x" = Val.vint 2
    ∧ ([("x", Val.vint 2)] : Obj) ≠ [("x", Val.vint 1)]
    ∧ Val.vint 2 ≠ Val.vint 1 :=
  ⟨rfl, rfl, rfl, rfl, by simp, by simp⟩

/-- Claim C1 amended: a binding taken with default (non-live) options
observes the captured store's field values as they are at invocation time
(so `set` calls performed in the original scope between bind and
invocation are visible); the invocation runs on a fresh copy distinct
from the captured store, so mutations inside the bound call never flow
back to the captured store, and the invoker's association is restored
afterwards. -/
theorem defaultBind_clones_at_invocation (m : Obj → Obj → Obj) (s : St) (b : Binding)
    (body : Prog) (hlive : b.live = false) (haddr : b.addr < s.heap.length) :
    curStore (invokeEntry b s) = s.heap.getD b.addr []
    ∧ (invokeEntry b s).cur = some s.heap.length
    ∧ (invokeEntry b s).cur ≠ some b.addr
    ∧ (invokeBound m b body s).1.heap[b.addr]? = s.heap[b.addr]?
    ∧ (invokeBound m b body s).1.cur = s.cur := by
  have hE : invokeEntry b s = scopeEnter s (s.heap.getD b.addr []) := by
    simp [invokeEntry, hlive]
  refine ⟨?_, ?_, ?_, ?_, rfl⟩
  · rw [hE]
    exact curStore_scopeEnter s (s.heap.getD b.addr [])
  · rw [hE]
    rfl
  · rw [hE, scopeEnter_cur]
    intro he
    have := Option.some.inj he
    omega
  · have h1 := exec_frame m body (invokeEntry b s) s.heap.length b.addr
      (by rw [hE]; simp [scopeEnter])
      (fun cc hcc => by
        rw [hE, scopeEnter_cur] at hcc
        exact Nat.le_of_eq (Option.some.inj hcc))
      haddr
    have h2 : (invokeEntry b s).heap[b.addr]? = s.heap[b.addr]? := by
      rw [hE]
      show (s.heap ++ [s.heap.getD b.addr []])[b.addr]? = s.heap[b.addr]?
      simp [List.getElem?_append, haddr]
    exact h1.trans h2

/-- Witness for the amended C1: invoking the default binding over the
mutated store `{x:2}` starts from `{x:2}`, and a `set` inside the bound
call does not write back to the captured store. -/
theorem defaultBind_clones_at_invocation_witness :
    (Binding.mk false 0).live = false
    ∧ 0 < 1
    ∧ curStore (invokeEntry ⟨false, 0⟩ ⟨[[("x", Val.vint 2)]], none⟩)
      = [("x", Val.vint 2)]
    ∧ (invokeBound defaultMerge ⟨false, 0⟩ (Prog.set [("x", Val.vint 9)] Prog.nil)
        ⟨[[("x", Val.vint 2)]], none⟩).1.heap[0]? = some [("x", Val.vint 2)] := by
  have h := defaultBind_clones_at_invocation defaultMerge ⟨[[("x", Val.vint 2)]], none⟩
    ⟨false, 0⟩ (Prog.set [("x", Val.vint 9)] Prog.nil) rfl (by decide)
  exact ⟨rfl, by decide, h.1, h.2.2.2.1⟩

/-- Claim C8 counterexample: `bindEmitter` is called while the store
`{x:1}` at address 0 is active; a listener registered later, while a
different store `{y:2}` at address 1 is active, is wrapped with a binding
to the registration-time store — it reads `{y:2}`, not the `{x:1}` that
was active when `bindEmitter` was called — because the rewritten
registration methods call `bind(listener, opts)` only when the listener is
registered. -/
theorem bindEmitter_capture_time_cex :
    register ⟨[[("x", Val.vint 1)], [("y", Val.vint 2)]], some 1⟩ RegVariant.on
        (bindEmitter false ⟨[], none⟩)
      = ⟨[some ⟨false, 1⟩], some false⟩
    ∧ curStore (invokeEntry ⟨false, 1⟩
        ⟨[[("x", Val.vint 1)], [("y", Val.vint 2)]], some 1⟩)
      = [("y", Val.vint 2)]
    ∧ ([("y", Val.vint 2)] : Obj) ≠ [("x", Val.vint 1)]
    ∧ some (⟨false, 1⟩ : Binding) ≠ some (⟨false, 0⟩ : Binding) :=
  ⟨rfl, rfl, by simp, by simp⟩

/-- Claim C8 amended: after `bindEmitter`, a listener registered through
any variant is wrapped exactly as `bind` would wrap it using the store
active at the moment the listener is registered (with no scope active at
registration the listener is added unchanged and observes no context);
listeners already present are preserved in place, `bindEmitter` itself
never alters the registered listeners, and before `bindEmitter` a
registration is never wrapped. -/
theorem bindEmitter_wraps_at_registration (s : St) (e : Emitter) (v : RegVariant)
    (live : Bool) (a : Nat) (hb : e.boundOpts = some live) (hcur : s.cur = some a) :
    bind s live = BindResult.wrapped ⟨live, a⟩
    ∧ (register s v e).listeners =
        (if v.isPrepend then some ⟨live, a⟩ :: e.listeners
         else e.listeners ++ [some ⟨live, a⟩])
    ∧ (∀ (live2 : Bool) (e2 : Emitter), (bindEmitter live2 e2).listeners = e2.listeners)
    ∧ (∀ (v2 : RegVariant) (s2 : St), s2.cur = none →
        (register s2 v2 e).listeners =
          (if v2.isPrepend then none :: e.listeners else e.listeners ++ [none]))
    ∧ (∀ (s2 : St) (v2 : RegVariant) (e2 : Emitter), e2.boundOpts = none →
        (register s2 v2 e2).listeners =
          (if v2.isPrepend then none :: e2.listeners else e2.listeners ++ [none])) := by
  have hbind : bind s live = BindResult.wrapped ⟨live, a⟩ := by
    unfold bind
    rw [hcur]
  have hw : wrapListener s e = some ⟨live, a⟩ := by
    unfold wrapListener
    rw [hb]
    show (match bind s live with
      | BindResult.unchanged => none
      | BindResult.wrapped b => some b) = some ⟨live, a⟩
    rw [hbind]
  refine ⟨hbind, ?_, fun live2 e2 => rfl, ?_, ?_⟩
  · cases hv : v.isPrepend <;> simp [register, hv, hw]
  · intro v2 s2 hnone
    have hw2 : wrapListener s2 e = none := by
      unfold wrapListener
      rw [hb]
      show (match bind s2 live with
        | BindResult.unchanged => none
        | BindResult.wrapped b => some b) = none
      unfold bind
      rw [hnone]
    cases hv : v2.isPrepend <;> simp [register, hv, hw2]
  · intro s2 v2 e2 hnone
    have hw2 : wrapListener s2 e2 = none := by
      unfold wrapListener
      rw [hnone]
    cases hv : v2.isPrepend <;> simp [register, hv, hw2]

/-- Witness for the amended C8: an emitter carrying one plain pre-existing
listener; a listener registered via `once` while `{x:1}` is active at
address 0 is appended wrapped with a binding to address 0. -/
theorem bindEmitter_wraps_at_registration_witness :
    (⟨[none], some false⟩ : Emitter).boundOpts = some false
    ∧ (⟨[[("x", Val.vint 1)]], some 0⟩ : St).cur = some 0
    ∧ (register ⟨[[("x", Val.vint 1)]], some 0⟩ RegVariant.once
        ⟨[none], some false⟩).listeners
      = [none, some ⟨false, 0⟩] := by
  have h := bindEmitter_wraps_at_registration ⟨[[("x", Val.vint 1)]], some 0⟩
    ⟨[none], some false⟩ RegVariant.once false 0 rfl rfl
  exact ⟨rfl, rfl, h.2.1⟩

end Ctxx
